import Mathlib

/-
Verification development for the graphing-calculator expression pipeline.

Shallow embedding of:
  - src/client/math/expression-parser.js  (ExpressionParser: detectVariables, parse, cache)
  - src/client/math/function-evaluator.js (FunctionEvaluator.evaluateAt)
  - the EventBus publish/subscribe fabric
  - the StateManager hierarchical store (get/set, history, subscriber notification)
  - the GraphEngine render pass, parameter detection and grid-step selection

The mathjs front end (math.parse + _extractVariables) is an external library;
it is abstracted as an oracle of type String -> Option (List String):
none models a syntax error thrown by math.parse, some syms models a successful
parse whose free-symbol extraction yields syms.
-/

namespace GraphCalc

/-! ### Expression parser (src/client/math/expression-parser.js) -/

/-- The object returned by ExpressionParser.parse (the CompiledExpression of the
spec).  The opaque mathjs node/compiled handles are dropped; the data fields are
kept.  evaluate-behaviour is modelled separately in the evaluator section. -/
structure ParsedExpr where
  expression : String
  declaredVars : List String
  usedVariables : List String
  isValid : Bool
  error : Option String
deriving DecidableEq

/-- The mutable fields of an ExpressionParser instance (constructor, lines 22-28).
The cache is a JS Map, modelled as an association list in insertion order. -/
structure ParserState where
  cache : List (String × ParsedExpr)
  maxCacheSize : Nat
  cacheHits : Nat
  cacheMisses : Nat
deriving DecidableEq

/-- Fresh parser: empty cache, maxCacheSize 100, zero counters. -/
def ParserState.init : ParserState :=
  { cache := [], maxCacheSize := 100, cacheHits := 0, cacheMisses := 0 }

/-- JS Map.has on the cache. -/
def cacheHas (cache : List (String × ParsedExpr)) (k : String) : Bool :=
  cache.any (fun e => e.1 = k)

/-- JS Map.get on the cache (first entry with the key; keys are unique in a Map). -/
def cacheGet (cache : List (String × ParsedExpr)) (k : String) : Option ParsedExpr :=
  (cache.find? (fun e => e.1 = k)).map (fun e => e.2)

/-- JS Map.set: update in place if the key is present, else append (insertion order). -/
def cacheSet (cache : List (String × ParsedExpr)) (k : String) (v : ParsedExpr) :
    List (String × ParsedExpr) :=
  if cacheHas cache k then
    cache.map (fun e => if e.1 = k then (k, v) else e)
  else
    cache ++ [(k, v)]

/-- _addToCache (lines 262-270): if size >= maxCacheSize, delete the first
(oldest-inserted) key, then Map.set the new entry. -/
def addToCache (st : ParserState) (key : String) (parsed : ParsedExpr) : ParserState :=
  let cache := if st.maxCacheSize ≤ st.cache.length then st.cache.drop 1 else st.cache
  { st with cache := cacheSet cache key parsed }

/-- detectVariables (lines 36-61).  Throws (Except.error) on empty text, on a
mathjs parse failure, and when the primary variable x is absent. -/
def detectVariables (mathParse : String → Option (List String)) (expression : String) :
    Except String (List String) :=
  if expression = "" then
    .error "Expression must be a non-empty string"
  else
    match mathParse expression with
    | none =>
      .error ("Failed to detect variables in expression " ++ expression)
    | some allSymbols =>
      let keptVars := allSymbols.filter (fun v => v = "x" || v = "y")
      if keptVars.contains "x" then
        .ok (if keptVars.contains "y" then ["x", "y"] else ["x"])
      else
        .error ("Expression " ++ expression ++ " must contain variable x")

/-- The cache key (line 80): text ++ ":" ++ variables.join(","). -/
def cacheKey (expression : String) (declaredVars : List String) : String :=
  expression ++ ":" ++ String.intercalate "," declaredVars

/-- The body of parse once a variable set is established (lines 79-174): cache
check, then the try/catch compile block.  A mathjs parse failure here is caught
and returned as an invalid object, never thrown. -/
def parseWithVars (mathParse : String → Option (List String)) (st : ParserState)
    (expression : String) (vars : List String) : ParsedExpr × ParserState :=
  let key := cacheKey expression vars
  match cacheGet st.cache key with
  | some cached =>
    (cached, { st with cacheHits := st.cacheHits + 1 })
  | none =>
    let st1 : ParserState := { st with cacheMisses := st.cacheMisses + 1 }
    match mathParse expression with
    | some usedVariables =>
      let parsed : ParsedExpr :=
        { expression := expression, declaredVars := vars,
          usedVariables := usedVariables, isValid := true, error := none }
      (parsed, addToCache st1 key parsed)
    | none =>
      ({ expression := expression, declaredVars := vars, usedVariables := [],
         isValid := false, error := some ("Parse error in " ++ expression) }, st1)

/-- parse (lines 69-175).  Faithful to the source: the detectVariables call for
an omitted variables argument sits OUTSIDE the try/catch, so its exception
propagates out of parse (Except.error). -/
def parse (mathParse : String → Option (List String)) (st : ParserState)
    (expression : String) (declaredVars : Option (List String)) :
    Except String (ParsedExpr × ParserState) :=
  if expression = "" then
    .error "Expression must be a non-empty string"
  else
    match (match declaredVars with
           | none => detectVariables mathParse expression
           | some vs => Except.ok vs) with
    | .error e => .error e
    | .ok vars => .ok (parseWithVars mathParse st expression vars)

/-- One parse call viewed as a state transition (the returned object discarded;
a thrown exception leaves the parser state unchanged). -/
def parseStep (mathParse : String → Option (List String)) (st : ParserState)
    (req : String × Option (List String)) : ParserState :=
  match parse mathParse st req.1 req.2 with
  | .ok r => r.2
  | .error _ => st

/-- A sequence of parse calls. -/
def runParses (mathParse : String → Option (List String)) (st : ParserState)
    (reqs : List (String × Option (List String))) : ParserState :=
  reqs.foldl (parseStep mathParse) st

/-- Concrete mathjs oracle for cache experiments: every text parses and its
free-symbol set is [x]. -/
def mathParseAll : String → Option (List String) := fun _ => some ["x"]

/-- The 105 distinct parse requests of the eviction scenario. -/
def distinct105 : List (String × Option (List String)) :=
  (List.range 105).map (fun i => ("x + " ++ toString i, some ["x"]))

/-- Concrete mathjs oracle on which the text x + is a syntax error. -/
def mathParseBad : String → Option (List String) :=
  fun t => if t = "x +" then none else some ["x"]

theorem addToCache_length_le (st : ParserState) (key : String) (p : ParsedExpr)
    (hmax : 1 ≤ st.maxCacheSize) (h : st.cache.length ≤ st.maxCacheSize) :
    (addToCache st key p).cache.length ≤ st.maxCacheSize := by
  unfold addToCache cacheSet
  dsimp only
  split
  · split
    · simp only [List.length_map, List.length_drop]
      omega
    · simp only [List.length_append, List.length_drop, List.length_cons,
        List.length_nil]
      omega
  · split
    · simpa using h
    · simp only [List.length_append, List.length_cons, List.length_nil]
      omega

theorem parseWithVars_state (m : String → Option (List String)) (st : ParserState)
    (text : String) (vars : List String) :
    (parseWithVars m st text vars).2.maxCacheSize = st.maxCacheSize ∧
    (1 ≤ st.maxCacheSize → st.cache.length ≤ st.maxCacheSize →
      (parseWithVars m st text vars).2.cache.length ≤ st.maxCacheSize) := by
  unfold parseWithVars
  dsimp only
  split
  · exact ⟨rfl, fun _ hlen => hlen⟩
  · split
    · exact ⟨rfl, fun hmax hlen => addToCache_length_le _ _ _ hmax hlen⟩
    · exact ⟨rfl, fun _ hlen => hlen⟩

theorem parse_ok_state (m : String → Option (List String)) (st : ParserState)
    (text : String) (dv : Option (List String)) (p : ParsedExpr) (st2 : ParserState)
    (h : parse m st text dv = .ok (p, st2)) :
    st2.maxCacheSize = st.maxCacheSize ∧
    (1 ≤ st.maxCacheSize → st.cache.length ≤ st.maxCacheSize →
      st2.cache.length ≤ st.maxCacheSize) := by
  unfold parse at h
  split at h
  · exact absurd h (by simp)
  · split at h
    · exact absurd h (by simp)
    · rename_i vars heq
      simp only [Except.ok.injEq] at h
      have hs := parseWithVars_state m st text vars
      rw [h] at hs
      exact hs

theorem parseStep_maxCacheSize (m : String → Option (List String)) (st : ParserState)
    (req : String × Option (List String)) :
    (parseStep m st req).maxCacheSize = st.maxCacheSize := by
  unfold parseStep
  split
  · next r heq => exact (parse_ok_state m st req.1 req.2 r.1 r.2 heq).1
  · rfl

theorem parseStep_cache_le (m : String → Option (List String)) (st : ParserState)
    (req : String × Option (List String))
    (hmax : 1 ≤ st.maxCacheSize) (h : st.cache.length ≤ st.maxCacheSize) :
    (parseStep m st req).cache.length ≤ st.maxCacheSize := by
  unfold parseStep
  split
  · next r heq => exact (parse_ok_state m st req.1 req.2 r.1 r.2 heq).2 hmax h
  · exact h

theorem runParses_invariant (m : String → Option (List String))
    (reqs : List (String × Option (List String))) :
    ∀ st : ParserState, 1 ≤ st.maxCacheSize → st.cache.length ≤ st.maxCacheSize →
      (runParses m st reqs).maxCacheSize = st.maxCacheSize ∧
      (runParses m st reqs).cache.length ≤ st.maxCacheSize := by
  induction reqs with
  | nil => exact fun st _ h => ⟨rfl, h⟩
  | cons r rs ih =>
    intro st hmax h
    have hstep := parseStep_maxCacheSize m st r
    have := ih (parseStep m st r) (hstep ▸ hmax) (hstep ▸ parseStep_cache_le m st r hmax h)
    exact ⟨by simpa [runParses, hstep] using this.1, by simpa [runParses, hstep] using this.2⟩

set_option maxRecDepth 200000 in
/-- Claim C3: the expression cache never exceeds its cap (default 100) across any
sequence of parse calls; a hit returns the cached object and leaves the cache
untouched (so insertion order is unchanged); an insertion into a full cache
evicts the least-recently-inserted entry; and 105 distinct insertions into the
default cache leave exactly the 100 most recently inserted entries. -/
theorem C3_cache_fifo_bounded :
    (∀ (m : String → Option (List String)) (reqs : List (String × Option (List String))),
        (runParses m ParserState.init reqs).cache.length ≤ 100)
    ∧ (∀ (m : String → Option (List String)) (st : ParserState) (text : String)
          (vars : List String) (cached : ParsedExpr),
        text ≠ "" → cacheGet st.cache (cacheKey text vars) = some cached →
        parse m st text (some vars) =
          .ok (cached, { st with cacheHits := st.cacheHits + 1 }))
    ∧ (∀ (st : ParserState) (key : String) (p : ParsedExpr),
        st.maxCacheSize ≤ st.cache.length → cacheHas (st.cache.drop 1) key = false →
        (addToCache st key p).cache = st.cache.drop 1 ++ [(key, p)])
    ∧ (runParses mathParseAll ParserState.init distinct105).cache.map Prod.fst
        = ((List.range 105).drop 5).map (fun i => cacheKey ("x + " ++ toString i) ["x"]) := by
  refine ⟨fun m reqs => ?_, fun m st text vars cached hne hget => ?_, fun st key p hfull hfresh => ?_, ?_⟩
  · exact (runParses_invariant m reqs ParserState.init (by decide) (by decide)).2
  · simp [parse, parseWithVars, hne, hget]
  · unfold addToCache cacheSet
    dsimp only
    rw [if_pos hfull, if_neg (by simpa using hfresh)]
  · decide

/-- Concrete parsed object used in cache witnesses. -/
def pW : ParsedExpr :=
  { expression := "x + 1", declaredVars := ["x"], usedVariables := ["x"],
    isValid := true, error := none }

/-- A parser state whose cache already holds pW. -/
def cW : ParserState :=
  { cache := [(cacheKey "x + 1" ["x"], pW)], maxCacheSize := 100,
    cacheHits := 0, cacheMisses := 1 }

/-- A parser state whose cache is at capacity (cap 1). -/
def cFull : ParserState :=
  { cache := [("a:x", pW)], maxCacheSize := 1, cacheHits := 0, cacheMisses := 1 }

theorem C3_witness :
    (runParses mathParseAll ParserState.init [("x + 1", some ["x"])]).cache.length ≤ 100
    ∧ parse mathParseAll cW "x + 1" (some ["x"]) = .ok (pW, { cW with cacheHits := 1 })
    ∧ (addToCache cFull "b:x" pW).cache = cFull.cache.drop 1 ++ [("b:x", pW)] := by
  obtain ⟨h1, h2, h3, _⟩ := C3_cache_fifo_bounded
  exact ⟨h1 mathParseAll [("x + 1", some ["x"])],
         h2 mathParseAll cW "x + 1" ["x"] pW (by decide) (by decide),
         h3 cFull "b:x" pW (by decide) (by decide)⟩

theorem parse_throws_on_detect_failure
    (m : String → Option (List String)) (st : ParserState) (text : String)
    (hne : ¬(text = "")) (hfail : m text = none) :
    parse m st text none =
      .error ("Failed to detect variables in expression " ++ text) := by
  simp [parse, detectVariables, hne, hfail]

/-- Claim C1 (code bug): at the failing input parse("x +") with the variables
argument omitted, parse throws (the detectVariables call at line 76 of
expression-parser.js sits outside the try/catch, so the mathjs syntax error
propagates), instead of returning an invalid CompiledExpression object with
isValid=false as the claim and the repository test
(should return error object for invalid expressions without throwing) state. -/
theorem C1_parse_of_invalid_text_throws :
    parse mathParseBad ParserState.init "x +" none =
      .error "Failed to detect variables in expression x +" :=
  parse_throws_on_detect_failure mathParseBad ParserState.init "x +"
    (by decide) rfl

/-- The object stored by the first parse call of the C10 collision scenario. -/
def pC10 : ParsedExpr :=
  { expression := "x+1", declaredVars := ["a,b"], usedVariables := ["x"],
    isValid := true, error := none }

/-- Parser state after that first call. -/
def stC10 : ParserState :=
  { cache := [(cacheKey "x+1" ["a,b"], pC10)], maxCacheSize := 100,
    cacheHits := 0, cacheMisses := 1 }

/-- Claim C10: the cache key does not separate all (text, declaredVariables)
pairs: the lists [a,b] (one element containing a comma) and [a, b] (two
elements) have the same comma-join, so the second parse call is scored as a hit
and returns the object stored by the first call, carrying the first call's
variables list. -/
theorem C10_cache_key_collision :
    cacheKey "x+1" ["a,b"] = cacheKey "x+1" ["a", "b"]
    ∧ (["a,b"] : List String) ≠ ["a", "b"]
    ∧ parse mathParseAll ParserState.init "x+1" (some ["a,b"]) = .ok (pC10, stC10)
    ∧ parse mathParseAll stC10 "x+1" (some ["a", "b"]) =
        .ok (pC10, { stC10 with cacheHits := 1 })
    ∧ pC10.declaredVars = ["a,b"] := by
  exact ⟨rfl, by decide, rfl, rfl, rfl⟩

/-! ### Function evaluator (src/client/math/function-evaluator.js) -/

/-- A variable assignment (scope). -/
def Scope : Type := List (String × ℚ)

/-- Outcome of one call of a compiled evaluator on a scope: a finite numeric
result, a non-finite or non-numeric result (NaN, Infinity, a non-number), or a
thrown exception.  The compiled evaluator itself is external (mathjs), so it is
abstracted as a function into this type. -/
inductive EvalOutcome where
  | val (q : ℚ)
  | nonfinite
  | thrown
deriving DecidableEq

/-- A JS number as observed by evaluateAt callers: a finite rational or the NaN
sentinel. -/
inductive JSNum where
  | fin (q : ℚ)
  | nan
deriving DecidableEq

/-- Lines 52-59 of function-evaluator.js: a bare number is wrapped as the scope
with only x assigned; an object is used as the scope directly. -/
def scopeOfPoint : ℚ ⊕ Scope → Scope
  | .inl x => [("x", x)]
  | .inr s => s

/-- evaluateAt (lines 47-76): throws only when no expression is set; otherwise
wraps the evaluator call in try/catch, returns NaN when the call throws, and
returns NaN for any non-finite result (the isFinite check). -/
def evaluateAt (parsedExpression : Option (Scope → EvalOutcome)) (point : ℚ ⊕ Scope) :
    Except String JSNum :=
  match parsedExpression with
  | none => .error "No expression set"
  | some ev =>
    match ev (scopeOfPoint point) with
    | .val q => .ok (.fin q)
    | .nonfinite => .ok .nan
    | .thrown => .ok .nan

/-- Claim C8: with an expression set, evaluateAt returns a number for every
scope and never throws; an internal evaluation failure and a non-finite result
both collapse to the single NaN sentinel, and a finite result is returned
unchanged. -/
theorem C8_evaluateAt_total_nan (ev : Scope → EvalOutcome) (point : ℚ ⊕ Scope) :
    ∃ r : JSNum, evaluateAt (some ev) point = .ok r
      ∧ (∀ q, ev (scopeOfPoint point) = .val q → r = .fin q)
      ∧ ((ev (scopeOfPoint point) = .thrown ∨ ev (scopeOfPoint point) = .nonfinite) →
          r = .nan) := by
  cases h : ev (scopeOfPoint point) with
  | val q =>
    refine ⟨.fin q, by simp [evaluateAt, h], fun q2 hq => ?_, fun hc => ?_⟩
    · cases hq
      rfl
    · rcases hc with hc | hc <;> cases hc
  | nonfinite =>
    refine ⟨.nan, by simp [evaluateAt, h], fun q2 hq => ?_, fun _ => rfl⟩
    cases hq
  | thrown =>
    refine ⟨.nan, by simp [evaluateAt, h], fun q2 hq => ?_, fun _ => rfl⟩
    cases hq

/-- Concrete compiled evaluator for the expression x + 1. -/
def evXplusOne : Scope → EvalOutcome := fun s =>
  match s.lookup "x" with
  | some q => .val (q + 1)
  | none => .thrown

theorem C8_witness :
    evaluateAt (some evXplusOne) (Sum.inl 5) = .ok (.fin 6) := by
  obtain ⟨r, h1, h2, h3⟩ := C8_evaluateAt_total_nan evXplusOne (Sum.inl 5)
  have hr : r = .fin 6 := h2 6 (by norm_num [evXplusOne, scopeOfPoint, List.lookup])
  rw [hr] at h1
  exact h1

/-! ### EventBus (publish/subscribe fabric) -/

/-- One subscriber of a given event: the generated id, the once flag, and an
abstraction of its callback (whether the callback throws when invoked).
Callbacks are otherwise effect-free here; publish iterates over a snapshot, so
mid-dispatch list mutations are invisible to the current dispatch anyway. -/
structure BusSub where
  id : Nat
  once : Bool
  callbackThrows : Bool
deriving DecidableEq

/-- unsubscribe (lines 77-97): findIndex + splice removes the first subscriber
carrying the id. -/
def unsubscribe (subs : List BusSub) (sid : Nat) : List BusSub :=
  subs.eraseP (fun s => s.id = sid)

/-- The body of the forEach in publish (lines 144-155): the callback is
invoked; if it returns normally and the subscriber is a once subscriber, it is
unsubscribed; a throwing callback jumps to the catch, SKIPPING the removal.
The pair carried through the fold is (current subscriber list, invoked ids). -/
def publishStep (acc : List BusSub × List Nat) (s : BusSub) : List BusSub × List Nat :=
  if s.callbackThrows then
    (acc.1, acc.2 ++ [s.id])
  else if s.once then
    (unsubscribe acc.1 s.id, acc.2 ++ [s.id])
  else
    (acc.1, acc.2 ++ [s.id])

/-- publish (lines 118-156): iterate the fold over a snapshot of the current
subscriber list; returns the final subscriber list and the invoked ids. -/
def publish (subs : List BusSub) : List BusSub × List Nat :=
  subs.foldl publishStep (subs, [])

/-- A once subscriber whose callback throws. -/
def onceThrower : BusSub := { id := 1, once := true, callbackThrows := true }

/-- Claim C4 (code bug): at the failing input, a once subscriber whose callback
throws is invoked by the first publish, NOT removed (the unsubscribe call at
line 150 of the EventBus sits after the callback inside the try, so the throw
skips it), and is invoked again by a second publish of the same event —
contradicting the claim and the JSDoc of the once option (only trigger once,
then unsubscribe). -/
theorem C4_once_thrower_invoked_twice :
    (publish [onceThrower]).2 = [1]
    ∧ (publish [onceThrower]).1 = [onceThrower]
    ∧ (publish (publish [onceThrower]).1).2 = [1] :=
  ⟨rfl, rfl, rfl⟩

/-! ### StateManager (src/client/core/state-manager.js) -/

/-- A JS value as stored in the state tree.  Objects are association lists in
insertion order.  nanV is the JS number NaN (never strictly equal to itself).
Dotted path strings are represented pre-split as List String (split('.') /
join('.') round-trip for segments without inner dots). -/
inductive JSValue where
  | undefV
  | null
  | boolean (b : Bool)
  | number (q : ℚ)
  | nanV
  | string (s : String)
  | obj (fields : List (String × JSValue))
  | arr (elems : List JSValue)

/-- JS typeof v === 'object': true for null, plain objects and arrays. -/
def typeofObject : JSValue → Bool
  | .null => true
  | .obj _ => true
  | .arr _ => true
  | _ => false

/-- JS Array.isArray. -/
def isArr : JSValue → Bool
  | .arr _ => true
  | _ => false

/-- JS strict equality (===) as used in the early-return check of set: on
primitives it is structural except NaN !== NaN; on objects and arrays JS
compares references, but there the && typeof guard already discards
object-typed values, so false is a sound stand-in. -/
def strictEq : JSValue → JSValue → Bool
  | .undefV, .undefV => true
  | .null, .null => true
  | .boolean a, .boolean b => a = b
  | .number a, .number b => a = b
  | .string a, .string b => a = b
  | _, _ => false

/-- Property lookup on an object field list (first match). -/
def objLookup : List (String × JSValue) → String → Option JSValue
  | [], _ => none
  | (k, v) :: rest, key => if k = key then some v else objLookup rest key

/-- value[key]: field access.  JS property access on primitives yields
undefined; array index access by numeric string is not touched by any claim and
is modelled as undefined as well. -/
def indexJS : JSValue → String → JSValue
  | .obj fields, key => (objLookup fields key).getD .undefV
  | _, _ => .undefV

/-- get (lines 87-103): walk the split path; return undefined as soon as the
current value is null or undefined. -/
def getPath : JSValue → List String → JSValue
  | v, [] => v
  | .null, _ :: _ => .undefV
  | .undefV, _ :: _ => .undefV
  | v, key :: rest => getPath (indexJS v key) rest

/-- Object field assignment: updating an existing key keeps its position, a new
key is appended (JS object key order). -/
def objSet : List (String × JSValue) → String → JSValue → List (String × JSValue)
  | [], key, v => [(key, v)]
  | (k, w) :: rest, key, v =>
    if k = key then (k, v) :: rest else (k, w) :: objSet rest key v

/-- The write walk of set (lines 122-142): missing intermediate keys are
created as {}; walking through or assigning into a non-object raises a
TypeError in strict mode, modelled as none. -/
def setPath : JSValue → List String → JSValue → Option JSValue
  | .obj fields, [last], v => some (.obj (objSet fields last v))
  | .obj fields, key :: rest@(_ :: _), v =>
    let child := match objLookup fields key with
      | some c => c
      | none => JSValue.obj []
    (match setPath child rest v with
     | some childNew => some (.obj (objSet fields key childNew))
     | none => none)
  | _, _, _ => none

/-- A HistoryEntry (timestamp omitted: purely diagnostic wall-clock data). -/
structure HistoryEntry where
  path : List String
  oldValue : JSValue
  newValue : JSValue

/-- A StateManager instance: the state tree, the path subscribers (path to
subscriber ids in registration order) and the history ring. -/
structure SMState where
  tree : JSValue
  subscribers : List (List String × List Nat)
  history : List HistoryEntry

/-- _addToHistory (lines 370-381): push, then shift the oldest beyond
maxHistory = 50. -/
def pushHistory (h : List HistoryEntry) (e : HistoryEntry) : List HistoryEntry :=
  let h2 := h ++ [e]
  if 50 < h2.length then h2.drop 1 else h2

/-- One subscriber-callback invocation: the subscriber id plus the value,
oldValue and path arguments it receives. -/
structure NotifyCall where
  subId : Nat
  path : List String
  value : JSValue
  oldValue : JSValue

/-- The subscriber ids registered for a path. -/
def subsFor (subs : List (List String × List Nat)) (p : List String) : List Nat :=
  match subs.find? (fun e => e.1 = p) with
  | some e => e.2
  | none => []

/-- The ancestor proper-prefix lengths visited by _notifySubscribers
(lines 270-287): i = parts.length - 1 down to 1. -/
def ancestorLens (n : Nat) : List Nat :=
  ((List.range n).drop 1).reverse

/-- The exact-path invocations of _notifySubscribers (lines 256-267): called
with the leaf value and oldValue. -/
def directCalls (sm : SMState) (path : List String) (value oldValue : JSValue) :
    List NotifyCall :=
  (subsFor sm.subscribers path).map
    (fun i => { subId := i, path := path, value := value, oldValue := oldValue })

/-- The ancestor invocations of _notifySubscribers (lines 269-287): for each
proper prefix, its subscribers are called with the ancestor's CURRENT value
read from the updated tree, and undefined for oldValue. -/
def ancestorCalls (sm : SMState) (path : List String) : List NotifyCall :=
  ((ancestorLens path.length).map (fun n =>
    (subsFor sm.subscribers (path.take n)).map (fun i =>
      { subId := i, path := path.take n, value := getPath sm.tree (path.take n),
        oldValue := JSValue.undefV }))).flatten

/-- _notifySubscribers (lines 255-288): exact-path subscribers first, then the
ancestor walk.  Subscriber exceptions are caught and logged; callbacks are
effect-free here. -/
def notifySubscribers (sm : SMState) (path : List String) (value oldValue : JSValue) :
    List NotifyCall :=
  directCalls sm path value oldValue ++ ancestorCalls sm path

/-- The spreadable fields of a value ({...v}): a non-object spread contributes
nothing. -/
def spreadFields : JSValue → List (String × JSValue)
  | .obj fields => fields
  | _ => []

/-- Shallow merge {...a, ...b}. -/
def overlay (a b : List (String × JSValue)) : List (String × JSValue) :=
  b.foldl (fun acc e => objSet acc e.1 e.2) a

/-- The two event names published by a non-silent set (lines 152-165). -/
def setEvents (path : List String) : List String :=
  ["state:changed:" ++ String.intercalate "." path, "state:changed"]

/-- set (lines 113-170).  Returns none when the write walk raises a TypeError;
otherwise the new instance, the published event names, and the subscriber
invocations (the last two empty for the early-return no-op and for silent). -/
def SMState.set (sm : SMState) (path : List String) (value : JSValue)
    (silent merge : Bool) : Option (SMState × List String × List NotifyCall) :=
  let oldValue := getPath sm.tree path
  if strictEq oldValue value && !typeofObject value then
    some (sm, [], [])
  else
    let finalValue :=
      if merge && typeofObject value && !isArr value then
        JSValue.obj (overlay (spreadFields oldValue) (spreadFields value))
      else value
    match setPath sm.tree path finalValue with
    | none => none
    | some newTree =>
      let entry : HistoryEntry := { path := path, oldValue := oldValue, newValue := value }
      let sm2 : SMState :=
        { sm with tree := newTree, history := pushHistory sm.history entry }
      if silent then
        some (sm2, [], [])
      else
        some (sm2, setEvents path, notifySubscribers sm2 path value oldValue)

/-- Claim C5 (amended): a set whose new value is typeof-primitive and strictly
equal (===) to the stored value is a complete no-op: state, history,
subscribers all unchanged, no events published, no subscribers notified. -/
theorem C5_set_unchanged_primitive_noop (sm : SMState) (path : List String)
    (v : JSValue) (silent merge : Bool)
    (hprim : typeofObject v = false)
    (heq : strictEq (getPath sm.tree path) v = true) :
    sm.set path v silent merge = some (sm, [], []) := by
  have hcond : (strictEq (getPath sm.tree path) v && !typeofObject v) = true := by
    simp [heq, hprim]
  unfold SMState.set
  simp [hcond]

/-- A store whose path a already holds the number 2, with one subscriber. -/
def c5okState : SMState :=
  { tree := .obj [("a", .number 2)], subscribers := [(["a"], [7])], history := [] }

theorem C5_witness :
    SMState.set c5okState ["a"] (.number 2) false false = some (c5okState, [], []) :=
  C5_set_unchanged_primitive_noop c5okState ["a"] (.number 2) false false rfl
    (by with_unfolding_all rfl)

/-- A store whose path a already holds null (a JS primitive whose typeof is
nevertheless the string object), with one subscriber. -/
def c5badState : SMState :=
  { tree := .obj [("a", .null)], subscribers := [(["a"], [7])], history := [] }

/-- First repeated write of the unchanged primitive null. -/
def c5r1 : Option (SMState × List String × List NotifyCall) :=
  SMState.set c5badState ["a"] JSValue.null false false

/-- Second repeated write of the unchanged primitive null. -/
def c5r2 : Option (SMState × List String × List NotifyCall) :=
  match c5r1 with
  | some r => SMState.set r.1 ["a"] JSValue.null false false
  | none => none

/-- Claim C5 counterexample: null is a JS primitive, but typeof null is the
string object, so a set of an unchanged null is NOT a no-op: each of two
consecutive identical writes appends a HistoryEntry (history grows 1 then 2),
publishes both events and runs a notification cycle. -/
theorem C5_counterexample_null_not_noop :
    c5r1.map (fun r => (r.1.history.length, r.2.1.length, r.2.2.length)) = some (1, 2, 1)
    ∧ c5r2.map (fun r => (r.1.history.length, r.2.1.length, r.2.2.length)) = some (2, 2, 1) :=
  ⟨by with_unfolding_all rfl, by with_unfolding_all rfl⟩

theorem mem_ancestorLens {n m : Nat} : n ∈ ancestorLens m ↔ 1 ≤ n ∧ n < m := by
  unfold ancestorLens
  rw [List.mem_reverse]
  cases m with
  | zero => simp
  | succ k =>
    rw [List.range_succ_eq_map]
    rw [List.drop_succ_cons, List.drop_zero]
    rw [List.mem_map]
    constructor
    · rintro ⟨j, hj, rfl⟩
      have := List.mem_range.mp hj
      omega
    · rintro ⟨h1, h2⟩
      exact ⟨n - 1, List.mem_range.mpr (by omega), by omega⟩

theorem notifySubscribers_spec (sm : SMState) (path : List String)
    (value oldValue : JSValue) :
    ∃ direct ancestors,
      notifySubscribers sm path value oldValue = direct ++ ancestors
      ∧ (∀ c ∈ direct, c.path = path)
      ∧ (∀ c ∈ ancestors, c.path.length < path.length
           ∧ c.path = path.take c.path.length
           ∧ c.value = getPath sm.tree c.path)
      ∧ (∀ n, 1 ≤ n → n < path.length →
           ∀ i ∈ subsFor sm.subscribers (path.take n),
             ∃ c ∈ ancestors, c.subId = i ∧ c.path = path.take n) := by
  refine ⟨directCalls sm path value oldValue, ancestorCalls sm path, rfl, ?_, ?_, ?_⟩
  · intro c hc
    rw [directCalls, List.mem_map] at hc
    obtain ⟨i, _, hi⟩ := hc
    rw [← hi]
  · intro c hc
    rw [ancestorCalls, List.mem_flatten] at hc
    obtain ⟨l, hl, hcl⟩ := hc
    rw [List.mem_map] at hl
    obtain ⟨n, hn, rfl⟩ := hl
    rw [List.mem_map] at hcl
    obtain ⟨i, _, rfl⟩ := hcl
    obtain ⟨h1, h2⟩ := mem_ancestorLens.mp hn
    dsimp only
    have hlen : (path.take n).length = n := by
      rw [List.length_take]
      omega
    rw [hlen]
    exact ⟨h2, rfl, rfl⟩
  · intro n h1 h2 i hi
    refine ⟨{ subId := i, path := path.take n, value := getPath sm.tree (path.take n),
              oldValue := JSValue.undefV }, ?_, rfl, rfl⟩
    rw [ancestorCalls]
    exact List.mem_flatten.mpr
      ⟨(subsFor sm.subscribers (path.take n)).map (fun i =>
          { subId := i, path := path.take n, value := getPath sm.tree (path.take n),
            oldValue := JSValue.undefV }),
       List.mem_map_of_mem _ (mem_ancestorLens.mpr ⟨h1, h2⟩),
       List.mem_map_of_mem _ hi⟩

/-- Claim C6: for a non-silent set that is not the unchanged-primitive no-op,
the notification trace is the direct-path subscribers first, then ancestor
notifications; every ancestor notification targets a proper prefix of the path
and carries the ancestor's CURRENT (post-update) value, and every subscriber
registered on a proper ancestor prefix is invoked on that prefix. -/
theorem C6_direct_before_ancestors (sm : SMState) (path : List String) (v : JSValue)
    (sm2 : SMState) (events : List String) (notifies : List NotifyCall)
    (hch : (strictEq (getPath sm.tree path) v && !typeofObject v) = false)
    (h : sm.set path v false false = some (sm2, events, notifies)) :
    ∃ direct ancestors, notifies = direct ++ ancestors
      ∧ (∀ c ∈ direct, c.path = path)
      ∧ (∀ c ∈ ancestors, c.path.length < path.length
           ∧ c.path = path.take c.path.length
           ∧ c.value = getPath sm2.tree c.path)
      ∧ (∀ n, 1 ≤ n → n < path.length →
           ∀ i ∈ subsFor sm.subscribers (path.take n),
             ∃ c ∈ ancestors, c.subId = i ∧ c.path = path.take n) := by
  unfold SMState.set at h
  dsimp only at h
  rw [hch] at h
  simp only [Bool.false_eq_true, if_false] at h
  split at h
  · exact absurd h (by simp)
  · simp only [Option.some.injEq, Prod.mk.injEq] at h
    obtain ⟨hsm, _, hnot⟩ := h
    subst hsm
    subst hnot
    exact notifySubscribers_spec _ path v _

/-- A store holding controls = {a: 1, b: 3} with one subscriber on controls. -/
def c6sm : SMState :=
  { tree := .obj [("controls", .obj [("a", .number 1), ("b", .number 3)])],
    subscribers := [(["controls"], [5])], history := [] }

/-- The single notification produced by set(controls.a, 2) on c6sm: subscriber
5 on the controls path receives the WHOLE updated controls map. -/
def c6notifies : List NotifyCall :=
  [{ subId := 5, path := ["controls"],
     value := .obj [("a", .number 2), ("b", .number 3)], oldValue := .undefV }]

/-- The store after that write. -/
def c6sm2 : SMState :=
  { tree := .obj [("controls", .obj [("a", .number 2), ("b", .number 3)])],
    subscribers := [(["controls"], [5])],
    history := [{ path := ["controls", "a"], oldValue := .number 1,
                  newValue := .number 2 }] }

set_option maxRecDepth 20000 in
theorem C6_witness :
    ∃ direct ancestors, c6notifies = direct ++ ancestors
      ∧ (∀ c ∈ direct, c.path = ["controls", "a"])
      ∧ (∀ c ∈ ancestors, c.path.length < (["controls", "a"] : List String).length
           ∧ c.path = (["controls", "a"] : List String).take c.path.length
           ∧ c.value = getPath c6sm2.tree c.path)
      ∧ (∀ n, 1 ≤ n → n < (["controls", "a"] : List String).length →
           ∀ i ∈ subsFor c6sm.subscribers ((["controls", "a"] : List String).take n),
             ∃ c ∈ ancestors, c.subId = i
               ∧ c.path = (["controls", "a"] : List String).take n) :=
  C6_direct_before_ancestors c6sm ["controls", "a"] (.number 2) c6sm2
    (setEvents ["controls", "a"]) c6notifies (by with_unfolding_all rfl)
    (by with_unfolding_all rfl)

/-! ### GraphEngine (src/unnamed/part_001): render pass, parameter detection,
grid-step selection -/

/-- A FunctionRecord as stored under the functions state path. -/
structure FuncRec where
  id : Nat
  expression : String
  color : String
  visible : Bool
  error : Option String
deriving DecidableEq

/-- JS Map.set on the pending-error map keyed by function id: the first entry
with the key is updated in place, a fresh key is appended. -/
def pendingSet : List (Nat × Option String) → Nat → Option String →
    List (Nat × Option String)
  | [], k, v => [(k, v)]
  | e :: rest, k, v => if e.1 = k then (k, v) :: rest else e :: pendingSet rest k v

/-- JS Map.get on the pending-error map (first entry with the key; Map keys
are unique). -/
def pendingGet : List (Nat × Option String) → Nat → Option (Option String)
  | [], _ => none
  | e :: rest, k => if e.1 = k then some e.2 else pendingGet rest k

/-- drawFunction (lines 389-447) reduced to its state effect: drawing touches
only the canvas; if anything inside the try throws (outcome = some message),
the catch records the message in the pending map; on normal completion a
previously recorded truthy error is cleared by recording null (error messages
are non-empty strings, so Option is an adequate truthiness model).
StateManager.set is never called in this function. -/
def drawFunctionPending (outcome : FuncRec → Option String)
    (pending : List (Nat × Option String)) (f : FuncRec) :
    List (Nat × Option String) :=
  match outcome f with
  | some msg => pendingSet pending f.id (some msg)
  | none =>
    match f.error with
    | some _ => pendingSet pending f.id none
    | none => pending

/-- The body of the pendingErrorUpdates.forEach of applyPendingErrorUpdates
(lines 461-467): findIndex locates the FIRST record with the id; if found and
its error field differs (!==), the record is replaced with the error updated
and changed is noted. -/
def updateEntry : List FuncRec → Nat → Option String → List FuncRec × Bool
  | [], _, _ => ([], false)
  | f :: rest, fid, err =>
    if f.id = fid then
      if f.error ≠ err then ({ f with error := err } :: rest, true)
      else (f :: rest, false)
    else
      let r := updateEntry rest fid err
      (f :: r.1, r.2)

/-- applyPendingErrorUpdates (lines 453-477): early return on an empty map;
otherwise fold the entries over a copy of the functions list, clear the map,
and issue ONE StateManager.set(functions, ...) iff some recorded error differed
from the function's current error.  Returns (functions state after the call,
pending map after the call, list of state writes issued). -/
def applyPendingErrorUpdates (functions : List FuncRec)
    (pending : List (Nat × Option String)) :
    List FuncRec × List (Nat × Option String) × List (List FuncRec) :=
  match pending with
  | [] => (functions, pending, [])
  | _ =>
    let r := pending.foldl (fun acc e =>
      let u := updateEntry acc.1 e.1 e.2
      (u.1, acc.2 || u.2)) (functions, false)
    if r.2 then (r.1, [], [r.1]) else (functions, [], [])

/-- One observable step of a render pass. -/
inductive RenderEvent where
  | draw (id : Nat)
  | stateWrite (functions : List FuncRec)
deriving DecidableEq

/-- The functions drawn by render (lines 252-256): visible with a non-empty
expression, in state order. -/
def visibleFuncs (functions : List FuncRec) : List FuncRec :=
  functions.filter (fun f => f.visible && f.expression ≠ "")

/-- render (lines 236-260): clear/grid/axes touch only the canvas; each visible
function is drawn in state order, accumulating into the pending map; then
applyPendingErrorUpdates runs.  Returns the functions state after the frame,
the final pending map, and the ordered trace of draw events and state writes. -/
def render (outcome : FuncRec → Option String) (functions : List FuncRec)
    (pending0 : List (Nat × Option String)) :
    List FuncRec × List (Nat × Option String) × List RenderEvent :=
  let visible := visibleFuncs functions
  let pending1 := visible.foldl (drawFunctionPending outcome) pending0
  let drawEvents := visible.map (fun f => RenderEvent.draw f.id)
  let r := applyPendingErrorUpdates functions pending1
  (r.1, r.2.1, drawEvents ++ (r.2.2).map RenderEvent.stateWrite)

/-- functions.findIndex(f => f.id === id), as the record found. -/
def firstWithId (functions : List FuncRec) (fid : Nat) : Option FuncRec :=
  functions.find? (fun f => f.id = fid)

/-- Does some pending entry differ from the current error of the (first)
record carrying its id? -/
def pendingDiffers (functions : List FuncRec)
    (pending : List (Nat × Option String)) : Bool :=
  pending.any (fun e =>
    match firstWithId functions e.1 with
    | some f => f.error ≠ e.2
    | none => false)

theorem pendingGet_set_self (m : List (Nat × Option String)) (k : Nat)
    (v : Option String) : pendingGet (pendingSet m k v) k = some v := by
  induction m with
  | nil => simp [pendingSet, pendingGet]
  | cons e rest ih =>
    by_cases h : e.1 = k <;> simp [pendingSet, pendingGet, h, ih]

theorem pendingGet_set_ne (m : List (Nat × Option String)) (k k2 : Nat)
    (v : Option String) (h : k2 ≠ k) :
    pendingGet (pendingSet m k v) k2 = pendingGet m k2 := by
  induction m with
  | nil => simp [pendingSet, pendingGet, Ne.symm h]
  | cons e rest ih =>
    by_cases he : e.1 = k
    · subst he
      simp [pendingSet, pendingGet, Ne.symm h]
    · by_cases he2 : e.1 = k2 <;> simp [pendingSet, pendingGet, he, he2, h, ih]

theorem drawFunctionPending_get_ne (outcome : FuncRec → Option String)
    (pending : List (Nat × Option String)) (f : FuncRec) (k : Nat) (h : k ≠ f.id) :
    pendingGet (drawFunctionPending outcome pending f) k = pendingGet pending k := by
  unfold drawFunctionPending
  split
  · exact pendingGet_set_ne _ _ _ _ h
  · split
    · exact pendingGet_set_ne _ _ _ _ h
    · rfl

theorem foldDraw_get_not_mem (outcome : FuncRec → Option String)
    (rest : List FuncRec) (pending : List (Nat × Option String)) (k : Nat)
    (h : ¬ k ∈ rest.map FuncRec.id) :
    pendingGet (rest.foldl (drawFunctionPending outcome) pending) k
      = pendingGet pending k := by
  induction rest generalizing pending with
  | nil => rfl
  | cons g rs ih =>
    simp only [List.map_cons, List.mem_cons, not_or] at h
    rw [List.foldl_cons, ih _ h.2, drawFunctionPending_get_ne _ _ _ _ h.1]

theorem foldDraw_records (outcome : FuncRec → Option String) (visible : List FuncRec) :
    ∀ pending, ((visible.map FuncRec.id).Nodup) →
    ∀ f ∈ visible, ∀ msg, outcome f = some msg →
      pendingGet (visible.foldl (drawFunctionPending outcome) pending) f.id
        = some (some msg) := by
  induction visible with
  | nil =>
    intro pending _ f hf
    cases hf
  | cons g rest ih =>
    intro pending hnd f hf msg hmsg
    simp only [List.map_cons, List.nodup_cons] at hnd
    rw [List.foldl_cons]
    rcases List.mem_cons.mp hf with rfl | hf2
    · rw [foldDraw_get_not_mem _ _ _ _ hnd.1]
      unfold drawFunctionPending
      rw [hmsg]
      exact pendingGet_set_self _ _ _
    · exact ih _ hnd.2 f hf2 msg hmsg

theorem updateEntry_flag (fns : List FuncRec) (fid : Nat) (err : Option String) :
    (updateEntry fns fid err).2 =
      (match firstWithId fns fid with
       | some f => decide (f.error ≠ err)
       | none => false) := by
  induction fns with
  | nil => rfl
  | cons f rest ih =>
    by_cases h : f.id = fid
    · by_cases h2 : f.error ≠ err <;>
        simp [updateEntry, firstWithId, h, h2]
    · simp only [updateEntry, if_neg h]
      rw [ih]
      simp [firstWithId, List.find?_cons, h]

theorem firstWithId_updateEntry_ne (fns : List FuncRec) (fid : Nat)
    (err : Option String) (fid2 : Nat) (h : fid2 ≠ fid) :
    firstWithId (updateEntry fns fid err).1 fid2 = firstWithId fns fid2 := by
  induction fns with
  | nil => rfl
  | cons f rest ih =>
    by_cases hf : f.id = fid
    · have hne : ¬ f.id = fid2 := fun hc => h (by rw [← hc, hf])
      by_cases h2 : f.error ≠ err <;>
        simp [updateEntry, firstWithId, hf, h2, hne, Ne.symm h, List.find?_cons]
    · unfold firstWithId at ih
      by_cases hf2 : f.id = fid2 <;>
        simp [updateEntry, firstWithId, hf, hf2, h, Ne.symm h, List.find?_cons, ih]

theorem pendingDiffers_congr (fns1 fns2 : List FuncRec)
    (pending : List (Nat × Option String))
    (h : ∀ e ∈ pending, firstWithId fns1 e.1 = firstWithId fns2 e.1) :
    pendingDiffers fns1 pending = pendingDiffers fns2 pending := by
  unfold pendingDiffers
  induction pending with
  | nil => rfl
  | cons e rest ih =>
    simp only [List.any_cons]
    rw [h e (List.mem_cons_self _ _),
        ih (fun e2 he2 => h e2 (List.mem_cons_of_mem _ he2))]

theorem fold_changed (pending : List (Nat × Option String)) :
    ∀ (fns : List FuncRec) (b : Bool), ((pending.map Prod.fst).Nodup) →
    (pending.foldl (fun acc e =>
        let u := updateEntry acc.1 e.1 e.2
        (u.1, acc.2 || u.2)) (fns, b)).2
      = (b || pendingDiffers fns pending) := by
  induction pending with
  | nil =>
    intro fns b _
    simp [pendingDiffers]
  | cons e rest ih =>
    intro fns b hnd
    simp only [List.map_cons, List.nodup_cons] at hnd
    rw [List.foldl_cons]
    dsimp only
    rw [ih _ _ hnd.2]
    rw [pendingDiffers_congr (updateEntry fns e.1 e.2).1 fns rest
        (fun e2 he2 => firstWithId_updateEntry_ne _ _ _ _
          (fun hc => hnd.1 (hc ▸ List.mem_map_of_mem _ he2)))]
    rw [updateEntry_flag]
    simp only [pendingDiffers, List.any_cons]
    rw [Bool.or_assoc]

theorem mem_keys_pendingSet (m : List (Nat × Option String)) (k k2 : Nat)
    (v : Option String) (h : k2 ∈ (pendingSet m k v).map Prod.fst) :
    k2 ∈ m.map Prod.fst ∨ k2 = k := by
  induction m with
  | nil =>
    simp only [pendingSet, List.map_cons, List.map_nil, List.mem_singleton] at h
    exact Or.inr h
  | cons e rest ih =>
    by_cases he : e.1 = k
    · simp only [pendingSet, if_pos he, List.map_cons, List.mem_cons] at h
      rcases h with h | h
      · exact Or.inr h
      · exact Or.inl (by simp [h])
    · simp only [pendingSet, if_neg he, List.map_cons, List.mem_cons] at h
      rcases h with h | h
      · exact Or.inl (by simp [h])
      · rcases ih h with h2 | h2
        · exact Or.inl (by simp [h2])
        · exact Or.inr h2

theorem pendingSet_keys_nodup (m : List (Nat × Option String)) (k : Nat)
    (v : Option String) (h : (m.map Prod.fst).Nodup) :
    ((pendingSet m k v).map Prod.fst).Nodup := by
  induction m with
  | nil => simp [pendingSet]
  | cons e rest ih =>
    by_cases he : e.1 = k
    · subst he
      simpa [pendingSet] using h
    · simp only [List.map_cons, List.nodup_cons] at h
      simp only [pendingSet, if_neg he, List.map_cons, List.nodup_cons]
      refine ⟨fun hc => ?_, ih h.2⟩
      rcases mem_keys_pendingSet rest k e.1 v hc with h2 | h2
      · exact h.1 h2
      · exact he h2

theorem drawFunctionPending_keys_nodup (outcome : FuncRec → Option String)
    (pending : List (Nat × Option String)) (f : FuncRec)
    (h : (pending.map Prod.fst).Nodup) :
    ((drawFunctionPending outcome pending f).map Prod.fst).Nodup := by
  unfold drawFunctionPending
  split
  · exact pendingSet_keys_nodup _ _ _ h
  · split
    · exact pendingSet_keys_nodup _ _ _ h
    · exact h

theorem foldDraw_keys_nodup (outcome : FuncRec → Option String)
    (visible : List FuncRec) :
    ∀ pending, ((pending.map Prod.fst).Nodup) →
    (((visible.foldl (drawFunctionPending outcome) pending)).map Prod.fst).Nodup := by
  induction visible with
  | nil => exact fun p h => h
  | cons g rest ih =>
    intro p h
    rw [List.foldl_cons]
    exact ih _ (drawFunctionPending_keys_nodup _ _ _ h)

theorem apply_spec (functions : List FuncRec) (pending : List (Nat × Option String))
    (hkeys : (pending.map Prod.fst).Nodup) :
    ((applyPendingErrorUpdates functions pending).2.2
       = if pendingDiffers functions pending
         then [(applyPendingErrorUpdates functions pending).1] else [])
    ∧ (applyPendingErrorUpdates functions pending).2.1 = []
    ∧ (pendingDiffers functions pending = false →
        (applyPendingErrorUpdates functions pending).1 = functions) := by
  cases pending with
  | nil => simp [applyPendingErrorUpdates, pendingDiffers]
  | cons e rest =>
    have hflag := fold_changed (e :: rest) functions false hkeys
    rw [Bool.false_or] at hflag
    unfold applyPendingErrorUpdates
    dsimp only
    rw [hflag]
    cases hd : pendingDiffers functions (e :: rest) <;> simp [hd]

/-- Claim C2: during a render pass, every draw failure is recorded in the
pending map under the function id (no state write happens inside a draw); the
trace is all draw events first, then at most one state write, issued exactly
when some recorded error differs from that function record's current error;
the pending map is drained; and when nothing differed the functions state is
untouched. -/
theorem C2_deferred_single_write (outcome : FuncRec → Option String)
    (functions : List FuncRec)
    (hids : ((functions.map FuncRec.id)).Nodup) :
    (∀ f ∈ visibleFuncs functions, ∀ msg, outcome f = some msg →
        pendingGet ((visibleFuncs functions).foldl (drawFunctionPending outcome) [])
          f.id = some (some msg))
    ∧ (render outcome functions []).2.2
        = (visibleFuncs functions).map (fun f => RenderEvent.draw f.id)
          ++ (if pendingDiffers functions
                  ((visibleFuncs functions).foldl (drawFunctionPending outcome) [])
              then [RenderEvent.stateWrite (render outcome functions []).1]
              else [])
    ∧ (render outcome functions []).2.1 = []
    ∧ (pendingDiffers functions
         ((visibleFuncs functions).foldl (drawFunctionPending outcome) []) = false →
       (render outcome functions []).1 = functions) := by
  have hvis : (((visibleFuncs functions).map FuncRec.id)).Nodup :=
    hids.sublist ((List.filter_sublist _).map _)
  have hkeys : ((((visibleFuncs functions).foldl (drawFunctionPending outcome) []).map
      Prod.fst)).Nodup :=
    foldDraw_keys_nodup outcome _ [] (by simp)
  have happly := apply_spec functions
    ((visibleFuncs functions).foldl (drawFunctionPending outcome) []) hkeys
  refine ⟨foldDraw_records outcome _ [] hvis, ?_, happly.2.1, happly.2.2⟩
  show (visibleFuncs functions).map (fun f => RenderEvent.draw f.id)
      ++ ((applyPendingErrorUpdates functions
            ((visibleFuncs functions).foldl (drawFunctionPending outcome) [])).2.2).map
          RenderEvent.stateWrite = _
  rw [happly.1]
  cases hd : pendingDiffers functions
      ((visibleFuncs functions).foldl (drawFunctionPending outcome) [])
  · simp [hd]
  · simp only [hd, if_pos, List.map_cons, List.map_nil]
    rfl

/-- Two visible functions whose evaluators both signal an error. -/
def c2funcs : List FuncRec :=
  [{ id := 1, expression := "sin(", color := "red", visible := true, error := none },
   { id := 2, expression := "cos(", color := "blue", visible := true, error := none }]

/-- The draw outcome of the two functions: both throw. -/
def c2outcome : FuncRec → Option String :=
  fun f => if f.id = 1 then some "err1" else some "err2"

theorem C2_witness :
    pendingGet ((visibleFuncs c2funcs).foldl (drawFunctionPending c2outcome) []) 1
      = some (some "err1")
    ∧ (render c2outcome c2funcs []).2.2
      = [RenderEvent.draw 1, RenderEvent.draw 2,
         RenderEvent.stateWrite (render c2outcome c2funcs []).1]
    ∧ (render c2outcome c2funcs []).2.1 = [] := by
  obtain ⟨h1, h2, h3, _⟩ := C2_deferred_single_write c2outcome c2funcs (by decide)
  refine ⟨?_, ?_, h3⟩
  · exact h1 { id := 1, expression := "sin(", color := "red", visible := true,
               error := none } (by decide) "err1" (by decide)
  · rw [h2]
    rfl

/-! ### detectAndUpdateParameters (src/unnamed/part_001, lines 279-315) -/

/-- JS Set.add: insertion-ordered, deduplicating. -/
def setInsert (s : List String) (v : String) : List String :=
  if v ∈ s then s else s ++ [v]

/-- typeof controls[k] !== 'undefined' (control values are numbers). -/
def ctrlHas (controls : List (String × ℚ)) (k : String) : Bool :=
  controls.any (fun e => e.1 = k)

/-- controls[k]. -/
def ctrlGet : List (String × ℚ) → String → Option ℚ
  | [], _ => none
  | e :: rest, k => if e.1 = k then some e.2 else ctrlGet rest k

/-- The body of the vars.forEach of the scan (lines 290-295): symbols other
than the reserved x and y are added to the set. -/
def symStep (acc : List String) (w : String) : List String :=
  if w ≠ "x" ∧ w ≠ "y" then setInsert acc w else acc

/-- The allVars set built by the scan (lines 282-299): every symbol reported by
getAllVariables for every non-empty expression, minus x and y (getAllVariables
itself returns [] on a parse failure, so the try/catch adds nothing). -/
def collectVars (getAllVars : String → List String) (functions : List FuncRec) :
    List String :=
  functions.foldl (fun acc f =>
    if f.expression = "" then acc
    else (getAllVars f.expression).foldl symStep acc) []

/-- The body of the allVars.forEach (lines 302-308): a symbol not yet a key of
the controls copy is inserted with the default value 1.0 and changed is set. -/
def ctrlStep (acc : List (String × ℚ) × Bool) (v : String) : List (String × ℚ) × Bool :=
  if ctrlHas acc.1 v then acc else (acc.1 ++ [(v, 1)], true)

/-- detectAndUpdateParameters (lines 279-315): run the scan over a copy of the
controls map and issue ONE StateManager.set(controls, ...) iff something was
inserted.  Returns (controls state after the pass, state writes issued). -/
def detectAndUpdateParameters (getAllVars : String → List String)
    (functions : List FuncRec) (controls : List (String × ℚ)) :
    List (String × ℚ) × List (List (String × ℚ)) :=
  let allVars := collectVars getAllVars functions
  let r := allVars.foldl ctrlStep (controls, false)
  if r.2 then (r.1, [r.1]) else (controls, [])

theorem mem_setInsert (s : List String) (v a : String) :
    a ∈ setInsert s v ↔ a ∈ s ∨ a = v := by
  unfold setInsert
  split
  · next hv =>
    constructor
    · exact Or.inl
    · rintro (h | rfl)
      · exact h
      · exact hv
  · simp

theorem mem_symFold (vars : List String) :
    ∀ (acc : List String) (v : String),
    (v ∈ vars.foldl symStep acc) ↔ (v ∈ acc ∨ (v ∈ vars ∧ v ≠ "x" ∧ v ≠ "y")) := by
  induction vars with
  | nil => simp
  | cons w rest ih =>
    intro acc v
    rw [List.foldl_cons, ih]
    unfold symStep
    by_cases hw : w ≠ "x" ∧ w ≠ "y"
    · rw [if_pos hw, mem_setInsert]
      constructor
      · rintro ((h | rfl) | h)
        · exact Or.inl h
        · exact Or.inr ⟨List.mem_cons_self _ _, hw⟩
        · exact Or.inr ⟨List.mem_cons_of_mem _ h.1, h.2⟩
      · rintro (h | ⟨hmem, hxy⟩)
        · exact Or.inl (Or.inl h)
        · rcases List.mem_cons.mp hmem with rfl | h2
          · exact Or.inl (Or.inr rfl)
          · exact Or.inr ⟨h2, hxy⟩
    · rw [if_neg hw]
      constructor
      · rintro (h | h)
        · exact Or.inl h
        · exact Or.inr ⟨List.mem_cons_of_mem _ h.1, h.2⟩
      · rintro (h | ⟨hmem, hxy⟩)
        · exact Or.inl h
        · rcases List.mem_cons.mp hmem with rfl | h2
          · exact absurd hxy hw
          · exact Or.inr ⟨h2, hxy⟩

theorem mem_collectVars_gen (g : String → List String) (functions : List FuncRec) :
    ∀ (acc : List String) (v : String),
    (v ∈ functions.foldl (fun acc f =>
        if f.expression = "" then acc
        else (g f.expression).foldl symStep acc) acc)
    ↔ (v ∈ acc ∨ ∃ f ∈ functions,
         f.expression ≠ "" ∧ v ∈ g f.expression ∧ v ≠ "x" ∧ v ≠ "y") := by
  induction functions with
  | nil => simp
  | cons f rest ih =>
    intro acc v
    rw [List.foldl_cons, ih]
    by_cases hf : f.expression = ""
    · rw [if_pos hf]
      constructor
      · rintro (h | ⟨f2, hf2, hprops⟩)
        · exact Or.inl h
        · exact Or.inr ⟨f2, List.mem_cons_of_mem _ hf2, hprops⟩
      · rintro (h | ⟨f2, hf2, hprops⟩)
        · exact Or.inl h
        · rcases List.mem_cons.mp hf2 with rfl | h2
          · exact absurd hf hprops.1
          · exact Or.inr ⟨f2, h2, hprops⟩
    · rw [if_neg hf, mem_symFold]
      constructor
      · rintro ((h | h) | ⟨f2, hf2, hprops⟩)
        · exact Or.inl h
        · exact Or.inr ⟨f, List.mem_cons_self _ _, hf, h⟩
        · exact Or.inr ⟨f2, List.mem_cons_of_mem _ hf2, hprops⟩
      · rintro (h | ⟨f2, hf2, hprops⟩)
        · exact Or.inl (Or.inl h)
        · rcases List.mem_cons.mp hf2 with rfl | h2
          · exact Or.inl (Or.inr ⟨hprops.2.1, hprops.2.2⟩)
          · exact Or.inr ⟨f2, h2, hprops⟩

theorem mem_collectVars (g : String → List String) (functions : List FuncRec)
    (v : String) :
    v ∈ collectVars g functions
    ↔ ∃ f ∈ functions, f.expression ≠ "" ∧ v ∈ g f.expression ∧ v ≠ "x" ∧ v ≠ "y" := by
  rw [collectVars, mem_collectVars_gen]
  simp

theorem ctrlHas_append_true (a : List (String × ℚ)) (e : String × ℚ) (k : String)
    (h : ctrlHas a k = true) : ctrlHas (a ++ [e]) k = true := by
  unfold ctrlHas at h ⊢
  simp [List.any_append, h]

theorem ctrlHas_append_self (a : List (String × ℚ)) (v : String) (q : ℚ) :
    ctrlHas (a ++ [(v, q)]) v = true := by
  simp [ctrlHas, List.any_append]

theorem ctrlStep_pos (a : List (String × ℚ)) (b : Bool) (v : String)
    (h : ctrlHas a v = true) : ctrlStep (a, b) v = (a, b) := by
  simp [ctrlStep, h]

theorem ctrlStep_neg (a : List (String × ℚ)) (b : Bool) (v : String)
    (h : ctrlHas a v = false) : ctrlStep (a, b) v = (a ++ [(v, 1)], true) := by
  simp [ctrlStep, h]

theorem ctrlHas_append_ne (a : List (String × ℚ)) (w : String) (q : ℚ) (k : String)
    (h : w ≠ k) : ctrlHas (a ++ [(w, q)]) k = ctrlHas a k := by
  simp [ctrlHas, List.any_append, h]

theorem ctrlGet_append_of_has (a : List (String × ℚ)) (e : String × ℚ) (k : String)
    (h : ctrlHas a k = true) : ctrlGet (a ++ [e]) k = ctrlGet a k := by
  induction a with
  | nil => simp [ctrlHas] at h
  | cons x rest ih =>
    by_cases hx : x.1 = k
    · simp [ctrlGet, hx]
    · simp only [ctrlHas, List.any_cons, hx, decide_eq_true_eq, false_or,
        Bool.false_or] at h
      simp only [List.cons_append, ctrlGet, hx, if_neg]
      exact ih (by simpa [ctrlHas] using h)

theorem ctrlGet_append_self (a : List (String × ℚ)) (v : String) (q : ℚ)
    (h : ctrlHas a v = false) : ctrlGet (a ++ [(v, q)]) v = some q := by
  induction a with
  | nil => simp [ctrlGet]
  | cons x rest ih =>
    simp only [ctrlHas, List.any_cons, Bool.or_eq_false_iff, decide_eq_false_iff_not] at h
    simp only [List.cons_append, ctrlGet, if_neg h.1]
    exact ih (by simp [ctrlHas, h.2])

theorem ctrlFold_get_old (vars : List String) :
    ∀ (acc : List (String × ℚ)) (b : Bool) (k : String), ctrlHas acc k = true →
    ctrlGet ((vars.foldl ctrlStep (acc, b)).1) k = ctrlGet acc k := by
  induction vars with
  | nil => exact fun acc b k _ => rfl
  | cons v rest ih =>
    intro acc b k hk
    rw [List.foldl_cons]
    by_cases hv : ctrlHas acc v
    · rw [ctrlStep_pos _ _ _ hv]
      exact ih _ _ _ hk
    · rw [ctrlStep_neg _ _ _ (by simpa using hv)]
      rw [ih _ _ _ (ctrlHas_append_true _ _ _ hk)]
      exact ctrlGet_append_of_has _ _ _ hk

theorem ctrlFold_get_new (vars : List String) :
    ∀ (acc : List (String × ℚ)) (b : Bool) (v : String), v ∈ vars →
    ctrlHas acc v = false →
    ctrlGet ((vars.foldl ctrlStep (acc, b)).1) v = some 1 := by
  induction vars with
  | nil =>
    intro acc b v hv
    cases hv
  | cons w rest ih =>
    intro acc b v hv hnew
    rw [List.foldl_cons]
    by_cases hw : w = v
    · subst hw
      rw [ctrlStep_neg _ _ _ hnew]
      rw [ctrlFold_get_old rest _ _ _ (ctrlHas_append_self _ _ _)]
      exact ctrlGet_append_self _ _ _ hnew
    · have hv2 : v ∈ rest := by
        rcases List.mem_cons.mp hv with rfl | h2
        · exact absurd rfl hw
        · exact h2
      by_cases hw2 : ctrlHas acc w
      · rw [ctrlStep_pos _ _ _ hw2]
        exact ih _ _ _ hv2 hnew
      · rw [ctrlStep_neg _ _ _ (by simpa using hw2)]
        exact ih _ _ _ hv2 (by rw [ctrlHas_append_ne _ _ _ _ hw]; exact hnew)

theorem ctrlFold_flag (vars : List String) :
    ∀ (acc : List (String × ℚ)) (b : Bool),
    (vars.foldl ctrlStep (acc, b)).2 = (b || vars.any (fun v => !ctrlHas acc v)) := by
  induction vars with
  | nil => simp
  | cons v rest ih =>
    intro acc b
    rw [List.foldl_cons]
    by_cases hv : ctrlHas acc v
    · rw [ctrlStep_pos _ _ _ hv, ih]
      simp [hv]
    · rw [ctrlStep_neg _ _ _ (by simpa using hv), ih]
      simp [hv]

/-- Claim C7: the parameter-detection pass inserts the fixed default 1.0 for
every collected free symbol (other than the reserved x, y) not yet a key of
controls, leaves already-present entries untouched, and issues exactly one
batched controls write iff at least one symbol was inserted (none otherwise);
the collected symbols are exactly those appearing in some function's non-empty
expression. -/
theorem C7_parameter_detection (g : String → List String)
    (functions : List FuncRec) (controls : List (String × ℚ)) :
    (∀ v, (∃ f ∈ functions, f.expression ≠ "" ∧ v ∈ g f.expression) →
        v ≠ "x" → v ≠ "y" → ctrlHas controls v = false →
        ctrlGet (detectAndUpdateParameters g functions controls).1 v = some 1)
    ∧ (∀ k, ctrlHas controls k = true →
        ctrlGet (detectAndUpdateParameters g functions controls).1 k
          = ctrlGet controls k)
    ∧ ((detectAndUpdateParameters g functions controls).2.length
        = if ∃ v ∈ collectVars g functions, ctrlHas controls v = false
          then 1 else 0)
    ∧ (∀ w ∈ (detectAndUpdateParameters g functions controls).2,
         w = (detectAndUpdateParameters g functions controls).1)
    ∧ (∀ v, v ∈ collectVars g functions
        ↔ ∃ f ∈ functions, f.expression ≠ "" ∧ v ∈ g f.expression
            ∧ v ≠ "x" ∧ v ≠ "y") := by
  have hflag := ctrlFold_flag (collectVars g functions) controls false
  rw [Bool.false_or] at hflag
  refine ⟨?_, ?_, ?_, ?_, mem_collectVars g functions⟩
  · intro v hex hx hy hnew
    obtain ⟨f, hf, hfe, hfv⟩ := hex
    have hv : v ∈ collectVars g functions :=
      (mem_collectVars g functions v).mpr ⟨f, hf, hfe, hfv, hx, hy⟩
    have hany : (collectVars g functions).any (fun v => !ctrlHas controls v) = true :=
      List.any_eq_true.mpr ⟨v, hv, by simp [hnew]⟩
    unfold detectAndUpdateParameters
    dsimp only
    rw [hflag, hany, if_pos rfl]
    exact ctrlFold_get_new _ _ _ _ hv hnew
  · intro k hk
    unfold detectAndUpdateParameters
    dsimp only
    split
    · exact ctrlFold_get_old _ _ _ _ hk
    · rfl
  · unfold detectAndUpdateParameters
    dsimp only
    rw [hflag]
    by_cases hex : ∃ v ∈ collectVars g functions, ctrlHas controls v = false
    · obtain ⟨v, hv, hfalse⟩ := hex
      have hany : ((collectVars g functions).any fun v => !ctrlHas controls v) = true :=
        List.any_eq_true.mpr ⟨v, hv, by simp [hfalse]⟩
      rw [hany, if_pos rfl, if_pos ⟨v, hv, hfalse⟩]
      rfl
    · have hany : ((collectVars g functions).any fun v => !ctrlHas controls v) = false := by
        rw [List.any_eq_false]
        intro x hx
        cases hc : ctrlHas controls x
        · exact absurd ⟨x, hx, hc⟩ hex
        · simp [hc]
      rw [hany, if_neg (by simp), if_neg hex]
      rfl
  · unfold detectAndUpdateParameters
    dsimp only
    split
    · intro w hw
      rw [List.mem_singleton] at hw
      exact hw
    · intro w hw
      cases hw

/-- The functions of the end-to-end scenario: sin(x) and a*x. -/
def c7funcs : List FuncRec :=
  [{ id := 1, expression := "sin(x)", color := "red", visible := true, error := none },
   { id := 2, expression := "a*x", color := "blue", visible := true, error := none }]

/-- Concrete getAllVariables oracle for those two expressions. -/
def c7vars : String → List String :=
  fun t => if t = "sin(x)" then ["x"] else if t = "a*x" then ["a", "x"] else []

/-- The a*x record of the scenario. -/
def c7fa : FuncRec :=
  { id := 2, expression := "a*x", color := "blue", visible := true, error := none }

theorem C7_witness :
    ctrlGet (detectAndUpdateParameters c7vars c7funcs []).1 "a" = some 1
    ∧ (detectAndUpdateParameters c7vars c7funcs []).2.length = 1
    ∧ (detectAndUpdateParameters c7vars c7funcs []).1 = [("a", 1)] := by
  obtain ⟨h1, h2, h3, h4, h5⟩ := C7_parameter_detection c7vars c7funcs []
  refine ⟨h1 "a" ⟨c7fa, by decide, by decide, by decide⟩ (by decide) (by decide) rfl,
    ?_, by with_unfolding_all rfl⟩
  rw [h3, if_pos]
  exact ⟨"a", by decide, rfl⟩

/-! ### Grid-step selection (src/unnamed/part_001, lines 350-363) -/

/-- calculateStep: rawStep = range / (pixels / minPixelsPerStep) with
minPixelsPerStep = 50; power = Math.floor(Math.log10(rawStep)); the mantissa
base = rawStep / 10^power is cut to 1, 2 or 5 by the thresholds base < 2 and
base < 5; result niceBase * 10^power.  JS doubles are modelled as exact
rationals, Int.log 10 plays floor(log10(.)). -/
def calculateStep (range pixels : ℚ) : ℚ :=
  let minPixelsPerStep : ℚ := 50
  let steps := pixels / minPixelsPerStep
  let rawStep := range / steps
  let power : ℤ := Int.log 10 rawStep
  let base := rawStep / (10 : ℚ) ^ power
  let niceBase : ℚ := if base < 2 then 1 else if base < 5 then 2 else 5
  niceBase * (10 : ℚ) ^ power

/-- Claim C9 (amended): for positive range and pixel extent, calculateStep
computes rawStep = range / (pixels / 50) and returns c * 10^floor(log10
rawStep) where c is the LARGEST member of {1, 2, 5} not exceeding the mantissa
rawStep / 10^floor(log10 rawStep) — a round-down threshold selection, not a
round-to-nearest. -/
theorem C9_calculateStep_rounds_down (range pixels : ℚ)
    (hr : 0 < range) (hp : 0 < pixels) :
    ∃ c : ℚ, (c = 1 ∨ c = 2 ∨ c = 5)
      ∧ calculateStep range pixels
          = c * (10 : ℚ) ^ Int.log 10 (range / (pixels / 50))
      ∧ c ≤ (range / (pixels / 50)) / (10 : ℚ) ^ Int.log 10 (range / (pixels / 50))
      ∧ ∀ d : ℚ, (d = 1 ∨ d = 2 ∨ d = 5) →
          d ≤ (range / (pixels / 50)) / (10 : ℚ) ^ Int.log 10 (range / (pixels / 50)) →
          d ≤ c := by
  set r := range / (pixels / 50) with hrdef
  set p := Int.log 10 r with hpdef
  set base := r / (10 : ℚ) ^ p with hbase
  have hr0 : 0 < r := div_pos hr (div_pos hp (by norm_num))
  have hpow : (0 : ℚ) < (10 : ℚ) ^ p := zpow_pos (by norm_num) p
  have hb1 : 1 ≤ base := by
    rw [hbase, le_div_iff₀ hpow, one_mul, hpdef]
    have := Int.zpow_log_le_self (b := 10) (R := ℚ) (by norm_num) hr0
    simpa using this
  have hcalc : calculateStep range pixels
      = (if base < 2 then (1 : ℚ) else if base < 5 then 2 else 5) * (10 : ℚ) ^ p := rfl
  rw [hcalc]
  by_cases h2 : base < 2
  · refine ⟨1, Or.inl rfl, by rw [if_pos h2], hb1, ?_⟩
    rintro d (rfl | rfl | rfl) hd
    · exact le_refl _
    · linarith
    · linarith
  · have h2b := not_lt.mp h2
    by_cases h5 : base < 5
    · refine ⟨2, Or.inr (Or.inl rfl), by rw [if_neg h2, if_pos h5], h2b, ?_⟩
      rintro d (rfl | rfl | rfl) hd
      · norm_num
      · exact le_refl _
      · linarith
    · have h5b := not_lt.mp h5
      refine ⟨5, Or.inr (Or.inr rfl), by rw [if_neg h2, if_neg h5], h5b, ?_⟩
      rintro d (rfl | rfl | rfl) hd <;> norm_num

/-- Claim C9 counterexample: at range 1.9 and pixel extent 50, rawStep is 1.9
with order of magnitude 10^0, and 2 * 10^0 is a member of {1,2,5} times an
admissible power of ten that is strictly NEARER to the raw step than the
returned 1 — the code rounds the mantissa down, not to the nearest member. -/
theorem C9_counterexample_not_nearest :
    calculateStep (19/10) 50 = 1
    ∧ (19 : ℚ)/10 / ((50 : ℚ) / 50) = 19/10
    ∧ Int.log 10 ((19 : ℚ)/10) = 0
    ∧ |(19 : ℚ)/10 - 2 * (10 : ℚ) ^ (0 : ℤ)| < |(19 : ℚ)/10 - 1 * (10 : ℚ) ^ (0 : ℤ)| := by
  have hrs : (19 : ℚ)/10 / ((50 : ℚ) / 50) = 19/10 := by norm_num
  have hfl : ⌊(19 : ℚ)/10⌋₊ = 1 := by
    rw [Nat.floor_eq_iff (by norm_num)]
    norm_num
  have hlog : Int.log 10 ((19 : ℚ)/10) = 0 := by
    rw [Int.log_of_one_le_right _ (by norm_num), hfl, Nat.log_one_right]
    rfl
  refine ⟨?_, hrs, hlog, ?_⟩
  · unfold calculateStep
    dsimp only
    rw [hrs, hlog, zpow_zero, div_one, if_pos (by norm_num : (19 : ℚ)/10 < 2), one_mul]
  · rw [zpow_zero]
    have h1 : |(19 : ℚ)/10 - 2 * 1| = 1/10 := by
      rw [abs_of_nonpos (by norm_num)]
      norm_num
    have h2 : |(19 : ℚ)/10 - 1 * 1| = 9/10 := by
      rw [abs_of_nonneg (by norm_num)]
      norm_num
    rw [h1, h2]
    norm_num

theorem C9_witness :
    ∃ c : ℚ, (c = 1 ∨ c = 2 ∨ c = 5)
      ∧ calculateStep 300 600 = c * (10 : ℚ) ^ Int.log 10 ((300 : ℚ) / (600 / 50))
      ∧ c ≤ ((300 : ℚ) / (600 / 50)) / (10 : ℚ) ^ Int.log 10 ((300 : ℚ) / (600 / 50))
      ∧ ∀ d : ℚ, (d = 1 ∨ d = 2 ∨ d = 5) →
          d ≤ ((300 : ℚ) / (600 / 50)) / (10 : ℚ) ^ Int.log 10 ((300 : ℚ) / (600 / 50)) →
          d ≤ c :=
  C9_calculateStep_rounds_down 300 600 (by norm_num) (by norm_num)

end GraphCalc
